import Mathlib

/-!
Shallow embedding of `stocklook/crypto/gdax/order_mm.py` (class `GdaxMMOrder`):
a market-maker order's pricing algorithms, buy/sell pairing, lock protocol,
cycle counting and profit/loss computation.

Conventions:
* Python floats are modelled as exact rationals (`ℚ`); `round(x, 2)` is
  `round2`, rounding to a whole number of cents.
* Methods that mutate `self` are modelled as functions returning the updated
  order; raised exceptions become `Except`/`Option` failures.
* The `while` loops and the recursion in `get_price_incremented` and friends
  have no termination guarantee in the source, so the embeddings take a fuel
  argument; fuel exhaustion (`Err.fuelOut` / `none`) models non-termination.
* The external `GdaxMarketMaker` ("`self.m`") and `BookSnapshot` collaborators
  are modelled as plain data supplying configuration, the book, the ticker and
  the sibling price lists, exactly as the pricing methods consume them.
-/

/-- Order side, the `'buy'` / `'sell'` strings of the source. -/
inductive Side where
  | buy
  | sell
deriving DecidableEq

/-- Outcome of evaluating a stored `unlock_method` callable on its order:
the callable can return a truthy value, return a falsy value, or raise. -/
inductive PredOutcome where
  | retTrue
  | retFalse
  | raises
deriving DecidableEq

/-- Failures of the pricing routines: `fuelOut` models a source loop or
recursion that never returns, `typeError` a Python `TypeError` (number
compared with `None`), `indexError` a Python `IndexError` (empty book side). -/
inductive Err where
  | fuelOut
  | typeError
  | indexError
deriving DecidableEq

/-- The fields of a `GdaxMMOrder` that the pricing methods read or write:
`side`, `price`, `size`, the optional pairing `_op_order` (itself an order),
the `_locked` flag, the stored `_unlock_method` (abstracted to the outcome of
calling it on `self`), and the `_cycle_number` counter. -/
inductive MMOrder where
  | mk (side : Side) (price : ℚ) (size : ℚ) (op : Option MMOrder)
      (locked : Bool) (unlockM : Option PredOutcome) (cycle : Nat)

def MMOrder.side : MMOrder → Side
  | .mk s _ _ _ _ _ _ => s

def MMOrder.price : MMOrder → ℚ
  | .mk _ p _ _ _ _ _ => p

def MMOrder.size : MMOrder → ℚ
  | .mk _ _ z _ _ _ _ => z

def MMOrder.op : MMOrder → Option MMOrder
  | .mk _ _ _ o _ _ _ => o

def MMOrder.locked : MMOrder → Bool
  | .mk _ _ _ _ l _ _ => l

def MMOrder.unlockM : MMOrder → Option PredOutcome
  | .mk _ _ _ _ _ u _ => u

def MMOrder.cycle : MMOrder → Nat
  | .mk _ _ _ _ _ _ c => c

/-- `self._op_order = x` keeping every other field. -/
def MMOrder.withOp : MMOrder → Option MMOrder → MMOrder
  | .mk s p z _ l u c, o2 => .mk s p z o2 l u c

/-- `self._locked = b` keeping every other field. -/
def MMOrder.withLocked : MMOrder → Bool → MMOrder
  | .mk s p z o _ u c, b => .mk s p z o b u c

/-- `self._unlock_method = u` keeping every other field. -/
def MMOrder.withUnlockM : MMOrder → Option PredOutcome → MMOrder
  | .mk s p z o l _ c, u2 => .mk s p z o l u2 c

/-- The external `BookSnapshot`: bids/asks as ordered `(price, size)` pairs
plus the cumulative-depth queries the pricing methods call. -/
structure BookSnapshot where
  bids : List (ℚ × ℚ)
  asks : List (ℚ × ℚ)
  askDepth : ℚ → ℚ
  bidDepth : ℚ → ℚ

/-- The slice of the external `GdaxMarketMaker` (`self.m`) that the order's
methods consume: spread/stop configuration, sibling price lists, the order
map `_orders` (side and price of each), the book snapshot and the ticker. -/
structure MarketMaker where
  stop_pct : Option ℚ
  min_spread : ℚ
  max_spread : ℚ
  buy_prices : List ℚ
  sell_prices : List ℚ
  orders : List (Side × ℚ)
  book : BookSnapshot
  ticker : Option ℚ

/-- Python `round(q, 2)`: round to a whole number of cents.
Stated with the executable `Rat.floor`; `round2_eq_round` below relates it to
Mathlib's `round`. -/
def round2 (q : ℚ) : ℚ := ((q * 100 + 1/2).floor : ℤ) / 100

/-- Python `list.remove(p)` wrapped in `try/except ValueError: pass`:
drop the first occurrence of `p`, or leave the list unchanged. -/
def removeFirst (p : ℚ) : List ℚ → List ℚ
  | [] => []
  | x :: xs => if x = p then xs else x :: removeFirst p xs

/-- Python truthiness of an optional number: `None` and `0` are falsy. -/
def truthyQ : Option ℚ → Option ℚ
  | none => none
  | some v => if v = 0 then none else some v

/-- Python `min` over a (nonempty) list; `0` is never used by callers on `[]`. -/
def listMin : List ℚ → ℚ
  | [] => 0
  | x :: xs => xs.foldl min x

/-- Python `max` over a (nonempty) list; `0` is never used by callers on `[]`. -/
def listMax : List ℚ → ℚ
  | [] => 0
  | x :: xs => xs.foldl max x

/-- `Rat.floor` agrees with Mathlib's floor on `ℚ`. -/
theorem ratFloor_eq_floor (q : ℚ) : q.floor = ⌊q⌋ := by
  rw [Rat.floor_def', Rat.floor_def]

/-- `round2` is rounding of 100·q followed by division by 100. -/
theorem round2_eq_round (q : ℚ) : round2 q = (round (q * 100) : ℤ) / 100 := by
  rw [round2, ratFloor_eq_floor, round_eq]

/-- Re-rounding a rounded price changes nothing. -/
theorem round2_round2 (q : ℚ) : round2 (round2 q) = round2 q := by
  rw [round2, round2, ratFloor_eq_floor, ratFloor_eq_floor]
  have h1 : ((⌊q * 100 + 1 / 2⌋ : ℚ) / 100 * 100 + 1 / 2 : ℚ)
      = ((⌊q * 100 + 1 / 2⌋ : ℤ) : ℚ) + 1 / 2 := by
    field_simp
  rw [h1, Int.floor_int_add]
  have h2 : ⌊(1 / 2 : ℚ)⌋ = 0 := by
    rw [Int.floor_eq_zero_iff]
    constructor <;> norm_num
  rw [h2]
  norm_num

example : round2 (99993/1000) = 9999/100 := by norm_num [round2, Rat.floor]
example : round2 (3/100) = 3/100 := by norm_num [round2, Rat.floor]
example : removeFirst 1 [2, 1, 1, 3] = [2, 1, 3] := by norm_num [removeFirst]
example : (|(100 : ℚ) - 10003/100| ≤ 3/100) := abs_le.mpr (by norm_num)
example : (3/100 : ℚ) ≤ |(100 : ℚ) - 10003/100| := le_abs.mpr (Or.inr (by norm_num))

/-! ## State and diagnostics methods -/

/-- The source's `locked` property reads `self.locked` — the property itself —
so every access recurses; the fuel argument makes the non-termination visible:
no amount of fuel produces an answer. -/
def lockedAccessor : Nat → MMOrder → Option Bool
  | 0, _ => none
  | n+1, o => lockedAccessor n o

/-- `GdaxMMOrder.lock(unlock_method=None)`: raises `OrderLockError` when
already locked, otherwise sets the flag and stores the unlock method. -/
def MMOrder.lock (o : MMOrder) (unlock_method : Option PredOutcome) :
    Except String MMOrder :=
  if o.locked then Except.error "Already locked"
  else Except.ok ((o.withLocked true).withUnlockM unlock_method)

/-- `GdaxMMOrder.unlock()`: if an unlock method is stored, a falsy return
raises `OrderLockError` inside the `try`, and any exception (including that
one) is re-raised as `OrderLockError`; otherwise the flag is cleared. -/
def MMOrder.unlock (o : MMOrder) : Except String MMOrder :=
  match o.unlockM with
  | none => Except.ok (o.withLocked false)
  | some PredOutcome.retTrue => Except.ok (o.withLocked false)
  | some PredOutcome.retFalse =>
      Except.error "Unlock method failure: Failed to unlock order"
  | some PredOutcome.raises => Except.error "Unlock method failure"

/-- `GdaxMMOrder.register_op_order(order)`: same side with a pairing adopts
that pairing; a different side is adopted directly; same side without a
pairing raises `AttributeError`. -/
def register_op_order (self other : MMOrder) : Except String MMOrder :=
  if other.side = self.side then
    match other.op with
    | some o_op => Except.ok (self.withOp (some o_op))
    | none => Except.error "Cannot register op_order of same type"
  else Except.ok (self.withOp (some other))

/-- `GdaxMMOrder.register_order_cycle()`. -/
def register_order_cycle : MMOrder → MMOrder
  | .mk s p z o l u c => .mk s p z o l u (c + 1)

/-- `GdaxMMOrder.get_pnl(price=None)`: `None` without a pairing, otherwise
`round(sell_spend - buy_spend, 2)` with the opposite leg's stored size and
price on its side and this leg's size and the evaluation price on this side. -/
def get_pnl (o : MMOrder) (price : Option ℚ) : Option ℚ :=
  match o.op with
  | none => none
  | some opo =>
    let pr := price.getD o.price
    if o.side = Side.buy then
      some (round2 (opo.size * opo.price - o.size * pr))
    else
      some (round2 (o.size * pr - opo.size * opo.price))

/-- `GdaxMMOrder.stop_amount`: `None` when `stop_pct` is falsy, the pairing is
missing, or the order is a buy; otherwise `op_price - op_price * stop_pct`. -/
def stop_amount (m : MarketMaker) (o : MMOrder) : Option ℚ :=
  match truthyQ m.stop_pct with
  | none => none
  | some sp =>
    match o.op with
    | none => none
    | some opo =>
      if o.side = Side.buy then none
      else some (opo.price - opo.price * sp)

/-- `GdaxMMOrder.get_price_target_via_op(min_diff=0.01)`: the pairing's price
plus `min_diff`; the `AttributeError` on a missing pairing is caught and the
order's own price returned. -/
def get_price_target_via_op (o : MMOrder) (min_diff : ℚ) : ℚ :=
  match o.op with
  | some opo => opo.price + min_diff
  | none => o.price

/-- `GdaxMMOrder.get_other_order_prices(side)`: the rounded prices of the
market maker's `_orders` entries on the given side. -/
def get_other_order_prices (m : MarketMaker) (side : Side) : List ℚ :=
  (m.orders.filter (fun so => decide (so.1 = side))).map (fun so => round2 so.2)

/-! ## `get_price_incremented` -/

/-- One move of the escape loop: `p += step` when incrementing, `p -= step`
when decrementing. -/
def piStep (inc : Bool) (step p : ℚ) : ℚ := if inc then p + step else p - step

/-- The `while check_p:` loop of `get_price_incremented`, entered when the
initial (strict) collision check is nonempty: move the already-rounded price
by one `step`, re-round, and stop once no other price lies in the closed
interval `[p - step, p + step]`. -/
def piLoop (others : List ℚ) (inc : Bool) (step : ℚ) : Nat → ℚ → Except Err ℚ
  | 0, _ => Except.error Err.fuelOut
  | n+1, p =>
    let p' := round2 (piStep inc step p)
    if (others.filter (fun x => decide (p' - step ≤ x ∧ x ≤ p' + step))) = [] then
      Except.ok p'
    else piLoop others inc step n p'

/-- The convergence phase of `get_price_incremented`: the initial strict
collision check around the unrounded `p` (lines 322-327 of the source),
followed by the escape loop on the rounded price when it is nonempty. -/
def piConverge (others : List ℚ) (inc : Bool) (step : ℚ) (fuel : Nat) (p : ℚ) :
    Except Err ℚ :=
  if (others.filter (fun x => decide (p - step < x ∧ x < p + step))) = [] then
    Except.ok (round2 p)
  else piLoop others inc step fuel (round2 p)

/-- `GdaxMMOrder.get_price_incremented(p, other_prices, cap_out=None,
increment=True, step=0.03, min_profit=0.01, _force=False)`.

The source first drops `p` itself from `other_prices` (a mutation the
recursive calls observe), checks for collisions strictly around the unrounded
`p`, rounds, runs the escape loop, then possibly recurses: once in the
opposite direction when a `cap_out` is crossed and not `_force`, and once from
the pairing's profit floor for a sell with `min_profit` set and a converged
price above `stop_amount` — each recursive call letting `min_profit` revert to
its default `0.01`.  Comparing the converged price against a `stop_amount` of
`None` is a Python `TypeError`. -/
def get_price_incremented (m : MarketMaker) (o : MMOrder) :
    Nat → ℚ → List ℚ → Option ℚ → Bool → ℚ → Option ℚ → Bool → Except Err ℚ
  | 0, _, _, _, _, _, _, _ => Except.error Err.fuelOut
  | fuel+1, p, other_prices, cap_out, increment, step, min_profit, force =>
    match piConverge (removeFirst p other_prices) increment step (fuel+1) p with
    | Except.error e => Except.error e
    | Except.ok q =>
      match cap_out, force with
      | some cap, false =>
        if increment = false ∧ q < cap then
          get_price_incremented m o fuel q (removeFirst p other_prices) cap_out true step
            (some (1/100)) true
        else if increment = true ∧ q > cap then
          get_price_incremented m o fuel q (removeFirst p other_prices) cap_out false step
            (some (1/100)) true
        else
          match o.side, min_profit with
          | Side.sell, some mp =>
            match stop_amount m o with
            | none => Except.error Err.typeError
            | some st =>
              if q > st then
                if get_price_target_via_op o mp > q then
                  get_price_incremented m o fuel (get_price_target_via_op o mp)
                    (removeFirst p other_prices) cap_out true step (some (1/100)) true
                else Except.ok q
              else Except.ok q
          | _, _ => Except.ok q
      | _, _ =>
        match o.side, min_profit with
        | Side.sell, some mp =>
          match stop_amount m o with
          | none => Except.error Err.typeError
          | some st =>
            if q > st then
              if get_price_target_via_op o mp > q then
                get_price_incremented m o fuel (get_price_target_via_op o mp)
                  (removeFirst p other_prices) cap_out true step (some (1/100)) true
              else Except.ok q
            else Except.ok q
        | _, _ => Except.ok q

/-! ## Book-relative pricing -/

/-- Sell-side probe loop of `get_amount_above_spread`: up to 5 times, move the
candidate level up by a third of the spread until the ask depth at it is at
least 30 or exactly 0. -/
def aboveLoop (snap : BookSnapshot) (bit : ℚ) : Nat → ℚ → ℚ
  | 0, mp => mp
  | n+1, mp =>
    let d := snap.askDepth mp
    if d ≥ 30 ∨ d = 0 then mp else aboveLoop snap bit n (mp + bit)

/-- Buy-side probe loop of `get_amount_above_spread`, mirror image of
`aboveLoop` over the bid depth. -/
def belowLoop (snap : BookSnapshot) (bit : ℚ) : Nat → ℚ → ℚ
  | 0, mp => mp
  | n+1, mp =>
    let d := snap.bidDepth mp
    if d ≥ 30 ∨ d = 0 then mp else belowLoop snap bit n (mp - bit)

/-- `GdaxMMOrder.get_amount_above_spread(spread=None)`: start from the best
bid (sell) or ask (buy) offset by the spread, probe depth up to 5 times, and
return `round(self.price - level, 2)`.  `none` models the `IndexError` raised
when the needed book side is empty. -/
def get_amount_above_spread (m : MarketMaker) (o : MMOrder) (spread0 : Option ℚ) :
    Option ℚ :=
  let spread := spread0.getD m.max_spread
  let spread_bit := spread / 3
  let snap := m.book
  match o.side with
  | Side.sell =>
    match snap.bids with
    | [] => none
    | (b, _) :: _ => some (round2 (o.price - aboveLoop snap spread_bit 5 (b + spread)))
  | Side.buy =>
    match snap.asks with
    | [] => none
    | (a, _) :: _ => some (round2 (o.price - belowLoop snap spread_bit 5 (a - spread)))

/-- The price computation of `get_price_adjusted_to_spread` after
`amount_above` is known: a falsy amount keeps the order's rounded price. -/
def spread_price (o : MMOrder) (factor : ℚ) : Option ℚ → ℚ
  | some a => if a = 0 then round2 o.price else round2 (o.price - a * factor)
  | none => round2 o.price

/-- The final clamp of `get_price_adjusted_to_spread`: with a pairing and
`min_profit` set, never fall below `op_order.price + min_profit`. -/
def spread_clamp (o : MMOrder) (min_profit : Option ℚ) (price : ℚ) : ℚ :=
  match o.op, min_profit with
  | some opo, some mp => if price < opo.price + mp then opo.price + mp else price
  | _, _ => price

/-- `GdaxMMOrder.get_price_adjusted_to_spread(spread=None, aggressive=True,
amount_above=None, factor=0.8, min_profit=0.01)`; a falsy `amount_above` is
recomputed from a falsy-defaulted spread, and `none` propagates the empty-book
`IndexError` of that recomputation. -/
def get_price_adjusted_to_spread (m : MarketMaker) (o : MMOrder) (spread0 : Option ℚ)
    (aggressive : Bool) (amount0 : Option ℚ) (factor : ℚ) (min_profit : Option ℚ) :
    Option ℚ :=
  match truthyQ amount0 with
  | some a => some (spread_clamp o min_profit (spread_price o factor (some a)))
  | none =>
    let spread := (truthyQ spread0).getD (if aggressive then m.min_spread else m.max_spread)
    match get_amount_above_spread m o (some spread) with
    | none => none
    | some a => some (spread_clamp o min_profit (spread_price o factor (some a)))

/-- `GdaxMMOrder.get_price_adjusted_to_other_prices(other_prices=None,
aggressive=True, step=0.03, min_profit=0.01)`: baseline from the spread
method, a displacement cap of `step × len(other_prices)`, then
`get_price_incremented` in a direction chosen from side, aggressiveness and
the extreme sibling prices (the inner call's `min_profit` reverts to the
default `0.01`). -/
def get_price_adjusted_to_other_prices (m : MarketMaker) (o : MMOrder) (fuel : Nat)
    (others0 : Option (List ℚ)) (aggressive : Bool) (step min_profit : ℚ) :
    Except Err ℚ :=
  let other_prices :=
    match others0 with
    | some l => l
    | none => if o.side = Side.buy then m.buy_prices else m.sell_prices
  match get_price_adjusted_to_spread m o none aggressive none (8/10) (some min_profit) with
  | none => Except.error Err.indexError
  | some my_min =>
    if other_prices = [] then Except.ok my_min
    else
      let f : ℚ := other_prices.length
      let cap_out := if o.side = Side.sell then my_min + step * f else my_min - step * f
      let max_and_step := listMax other_prices + step
      let min_and_step := listMin other_prices - step
      match o.side with
      | Side.buy =>
        if aggressive then
          if my_min ≥ max_and_step then
            get_price_incremented m o fuel my_min other_prices (some cap_out) true step
              (some (1/100)) false
          else
            get_price_incremented m o fuel my_min other_prices (some cap_out) false step
              (some (1/100)) false
        else
          get_price_incremented m o fuel my_min other_prices (some cap_out) false step
            (some (1/100)) false
      | Side.sell =>
        if aggressive then
          if my_min ≥ min_and_step then
            get_price_incremented m o fuel my_min other_prices (some cap_out) false step
              (some (1/100)) false
          else
            get_price_incremented m o fuel my_min other_prices (some cap_out) true step
              (some (1/100)) false
        else
          get_price_incremented m o fuel my_min other_prices (some cap_out) true step
            (some (1/100)) false

/-! ## Profit target, ticker and wall pricing -/

/-- The `while pnl < min_profit: price += 0.01` loop of
`get_price_adjusted_to_profit_target`.  The source never recomputes `pnl`
inside the loop, so the guard is decided once and for all: the loop either
returns immediately or runs forever (`none` at every fuel). -/
def profitLoop (pnl mp : ℚ) : Nat → ℚ → Option ℚ
  | 0, price => if pnl < mp then none else some price
  | n+1, price => if pnl < mp then profitLoop pnl mp n (price + 1/100) else some price

/-- `GdaxMMOrder.get_price_adjusted_to_profit_target(min_profit=0.01)`. -/
def get_price_adjusted_to_profit_target (o : MMOrder) (fuel : Nat) (min_profit : ℚ) :
    Option ℚ :=
  match get_pnl o (some o.price) with
  | none => some o.price
  | some pnl => profitLoop pnl min_profit fuel o.price

/-- The `while price in o_prices:` loop of `get_price_adjusted_to_ticker`:
nudge by `spread_add` (down for buys, up for sells) until unique. -/
def tickerLoop (side : Side) (spread_add : ℚ) (o_prices : List ℚ) : Nat → ℚ → Option ℚ
  | 0, price => if price ∈ o_prices then none else some price
  | n+1, price =>
    if price ∈ o_prices then
      tickerLoop side spread_add o_prices n
        (if side = Side.buy then price - spread_add else price + spread_add)
    else some price

/-- `GdaxMMOrder.get_price_adjusted_to_ticker(price=None, ticker=None,
aggressive=True, adjust_vs_open=True)`.  The `adjust_vs_open` parameter is
accepted but never read by the source.  A buy price at or above
`ticker - spread` is clamped to `ticker - spread`; a sell price at or below
`ticker + spread` is clamped to `ticker + spread`; then the uniqueness loop
runs.  No rounding is applied to the returned price. -/
def get_price_adjusted_to_ticker (m : MarketMaker) (o : MMOrder) (fuel : Nat)
    (price0 ticker0 : Option ℚ) (aggressive _adjust_vs_open : Bool) : Option ℚ :=
  let ticker := match ticker0 with | none => m.ticker | some t => some t
  let price := price0.getD o.price
  let spread := if aggressive then m.min_spread else m.max_spread
  let price :=
    match ticker with
    | none => price
    | some tp =>
      if o.side = Side.buy then (if price ≥ tp - spread then tp - spread else price)
      else (if price ≤ tp + spread then tp + spread else price)
  let o_prices := get_other_order_prices m o.side
  let spread_add := round2 (spread / 2)
  tickerLoop o.side spread_add o_prices fuel price

/-- The scan of `get_price_adjusted_to_wall` over the book levels with their
indices. -/
def wallScan (side : Side) (wall_size bump_value : ℚ) (min_idx : Nat) :
    Nat → List (ℚ × ℚ) → Option ℚ
  | _, [] => none
  | idx, (pr, sz) :: rest =>
    if sz ≥ wall_size ∧ idx ≥ min_idx then
      if side = Side.buy then some (pr + bump_value) else some (pr - bump_value)
    else wallScan side wall_size bump_value min_idx (idx+1) rest

/-- `GdaxMMOrder.get_price_adjusted_to_wall(min_idx=2, wall_size=50,
bump_value=0.01)`: first bid (buy) / ask (sell) level of size at least
`wall_size` at index at least `min_idx`, bumped above (buy) or below (sell)
the wall; `none` when no level qualifies. -/
def get_price_adjusted_to_wall (m : MarketMaker) (o : MMOrder) (min_idx : Nat)
    (wall_size bump_value : ℚ) : Option ℚ :=
  let data := if o.side = Side.buy then m.book.bids else m.book.asks
  wallScan o.side wall_size bump_value min_idx 0 data

/-! ## Helper lemmas -/

theorem removeFirst_subset (p x : ℚ) (l : List ℚ) (h : x ∈ removeFirst p l) : x ∈ l := by
  induction l with
  | nil => simp [removeFirst] at h
  | cons y ys ih =>
    simp only [removeFirst] at h
    by_cases hy : y = p
    · rw [if_pos hy] at h
      exact List.mem_cons_of_mem _ h
    · rw [if_neg hy] at h
      rcases List.mem_cons.mp h with h1 | h1
      · exact h1 ▸ List.mem_cons_self _ _
      · exact List.mem_cons_of_mem _ (ih h1)

theorem removeFirst_of_not_mem (p : ℚ) (l : List ℚ) (h : p ∉ l) : removeFirst p l = l := by
  induction l with
  | nil => rfl
  | cons y ys ih =>
    have hy : ¬ (y = p) := fun he => h (by rw [← he]; exact List.mem_cons_self y ys)
    have hys : p ∉ ys := fun hm => h (List.mem_cons_of_mem _ hm)
    simp only [removeFirst, if_neg hy, ih hys]

/-- A price that survives the escape loop is rounded and collision-free in the
closed sense. -/
theorem piLoop_ok (others : List ℚ) (inc : Bool) (step : ℚ) :
    ∀ (n : Nat) (p q : ℚ), piLoop others inc step n p = Except.ok q →
      (∀ x ∈ others, ¬(q - step ≤ x ∧ x ≤ q + step)) ∧ ∃ y, q = round2 y := by
  intro n
  induction n with
  | zero => intro p q h; simp only [piLoop] at h; cases h
  | succ k ih =>
    intro p q h
    simp only [piLoop] at h
    split at h
    · next hc =>
        cases h
        refine ⟨?_, ⟨_, rfl⟩⟩
        intro x hx
        have := List.filter_eq_nil_iff.mp hc x hx
        simpa using this
    · next => exact ih _ _ h

theorem piLoop_error (others : List ℚ) (inc : Bool) (step : ℚ) :
    ∀ (n : Nat) (p : ℚ) (e : Err), piLoop others inc step n p = Except.error e →
      e = Err.fuelOut := by
  intro n
  induction n with
  | zero =>
    intro p e h
    simp only [piLoop] at h
    cases h
    rfl
  | succ k ih =>
    intro p e h
    simp only [piLoop] at h
    split at h
    · cases h
    · exact ih _ _ h

/-- A price produced by the convergence phase is rounded, and is separated
from every obstacle: in the closed sense if the loop ran, or in the open sense
around the (already equal) input if the initial strict check was empty. -/
theorem piConverge_ok (others : List ℚ) (inc : Bool) (step : ℚ) (fuel : Nat)
    (p q : ℚ) (h : piConverge others inc step fuel p = Except.ok q) :
    (∃ y, q = round2 y) ∧
      ((∀ x ∈ others, ¬(q - step ≤ x ∧ x ≤ q + step)) ∨
        (q = round2 p ∧ ∀ x ∈ others, ¬(p - step < x ∧ x < p + step))) := by
  rw [piConverge] at h
  split at h
  · next hc =>
      cases h
      refine ⟨⟨p, rfl⟩, Or.inr ⟨rfl, ?_⟩⟩
      intro x hx
      have := List.filter_eq_nil_iff.mp hc x hx
      simpa using this
  · next =>
      obtain ⟨hfil, hy⟩ := piLoop_ok others inc step fuel (round2 p) q h
      exact ⟨hy, Or.inl hfil⟩

theorem piConverge_error (others : List ℚ) (inc : Bool) (step : ℚ) (fuel : Nat)
    (p : ℚ) (e : Err) (h : piConverge others inc step fuel p = Except.error e) :
    e = Err.fuelOut := by
  rw [piConverge] at h
  split at h
  · cases h
  · exact piLoop_error others inc step fuel (round2 p) e h

/-- Falling outside the closed step-interval means distance at least `step`. -/
theorem sep_of_not_closed {q x step : ℚ} (h : ¬(q - step ≤ x ∧ x ≤ q + step)) :
    step ≤ |q - x| := by
  rcases not_and_or.mp h with h1 | h1
  · have hx : x < q - step := not_le.mp h1
    have : step ≤ q - x := by linarith
    exact this.trans (le_abs_self _)
  · have hx : q + step < x := not_le.mp h1
    have : step ≤ x - q := by linarith
    calc step ≤ x - q := this
      _ ≤ |x - q| := le_abs_self _
      _ = |q - x| := abs_sub_comm _ _

/-- Falling outside the open step-interval also means distance at least
`step`. -/
theorem sep_of_not_open {p x step : ℚ} (h : ¬(p - step < x ∧ x < p + step)) :
    step ≤ |p - x| := by
  rcases not_and_or.mp h with h1 | h1
  · have hx : x ≤ p - step := not_lt.mp h1
    have : step ≤ p - x := by linarith
    exact this.trans (le_abs_self _)
  · have hx : p + step ≤ x := not_lt.mp h1
    have : step ≤ x - p := by linarith
    calc step ≤ x - p := this
      _ ≤ |x - p| := le_abs_self _
      _ = |p - x| := abs_sub_comm _ _

/-- Collision separation for buy-side calls of `get_price_incremented`: every
returned price keeps distance at least `step` from every obstacle that
survives the removal of the input price (the sell-side profit-floor recursion
can land exactly on an obstacle, so the guarantee is buy-side only). -/
theorem pi_separation (m : MarketMaker) (o : MMOrder) (hside : o.side = Side.buy)
    (step : ℚ) (hstep : 0 < step) :
    ∀ (fuel : Nat) (p : ℚ) (lst : List ℚ) (cap : Option ℚ) (inc : Bool)
      (mp : Option ℚ) (force : Bool) (r : ℚ),
      round2 p = p →
      get_price_incremented m o fuel p lst cap inc step mp force = Except.ok r →
      ∀ x ∈ removeFirst p lst, step ≤ |r - x| := by
  intro fuel
  induction fuel with
  | zero =>
    intro p lst cap inc mp force r hp h
    simp only [get_price_incremented] at h
    simp at h
  | succ k ih =>
    intro p lst cap inc mp force r hp h
    cases hq : piConverge (removeFirst p lst) inc step (k+1) p with
    | error e =>
      simp only [get_price_incremented, hq] at h
      exact (Except.noConfusion h)
    | ok q =>
      obtain ⟨⟨y, hy⟩, hsep⟩ := piConverge_ok _ _ _ _ _ _ hq
      have hq2 : round2 q = q := by rw [hy]; exact round2_round2 y
      have hsepq : ∀ x ∈ removeFirst p lst, step ≤ |q - x| := by
        rcases hsep with hA | ⟨hqp, hB⟩
        · intro x hx
          exact sep_of_not_closed (hA x hx)
        · intro x hx
          have hs := sep_of_not_open (hB x hx)
          rw [hqp, hp]
          exact hs
      have hnot : q ∉ removeFirst p lst := by
        intro hin
        have h0 := hsepq q hin
        rw [sub_self, abs_zero] at h0
        exact absurd h0 (not_le.mpr hstep)
      have hrm : removeFirst q (removeFirst p lst) = removeFirst p lst :=
        removeFirst_of_not_mem _ _ hnot
      cases cap with
      | some c =>
        cases force with
        | false =>
          simp only [get_price_incremented, hq] at h
          split at h
          · have hres := ih q (removeFirst p lst) (some c) true (some (1/100)) true r hq2 h
            rw [hrm] at hres
            exact hres
          · split at h
            · have hres := ih q (removeFirst p lst) (some c) false (some (1/100)) true r hq2 h
              rw [hrm] at hres
              exact hres
            · rw [hside] at h
              cases mp <;> simp at h <;> subst h <;> exact hsepq
        | true =>
          simp only [get_price_incremented, hq] at h
          rw [hside] at h
          cases mp <;> simp at h <;> subst h <;> exact hsepq
      | none =>
        cases force <;> simp only [get_price_incremented, hq] at h <;> rw [hside] at h <;>
          cases mp <;> simp at h <;> subst h <;> exact hsepq

/-- Minimum-profit floor for sell-side calls with the default `min_profit` of
`0.01`: a returned price above the stop-out level is at least the paired buy
price plus `0.01`. -/
theorem pi_floor (m : MarketMaker) (o : MMOrder) (hside : o.side = Side.sell)
    (opo : MMOrder) (hop : o.op = some opo) (st : ℚ)
    (hst : stop_amount m o = some st) :
    ∀ (fuel : Nat) (p : ℚ) (lst : List ℚ) (cap : Option ℚ) (inc : Bool) (step : ℚ)
      (force : Bool) (r : ℚ),
      get_price_incremented m o fuel p lst cap inc step (some (1/100)) force = Except.ok r →
      st < r → opo.price + 1/100 ≤ r := by
  intro fuel
  induction fuel with
  | zero =>
    intro p lst cap inc step force r h hr
    simp only [get_price_incremented] at h
    exact (Except.noConfusion h)
  | succ k ih =>
    intro p lst cap inc step force r h hr
    cases hq : piConverge (removeFirst p lst) inc step (k+1) p with
    | error e =>
      simp only [get_price_incremented, hq] at h
      exact (Except.noConfusion h)
    | ok q =>
      cases cap with
      | some c =>
        cases force with
        | false =>
          simp only [get_price_incremented, hq] at h
          split at h
          · exact ih q (removeFirst p lst) (some c) true step true r h hr
          · split at h
            · exact ih q (removeFirst p lst) (some c) false step true r h hr
            · rw [hside] at h
              simp only [hst, get_price_target_via_op, hop] at h
              split at h
              · split at h
                · exact ih _ (removeFirst p lst) (some c) true step true r h hr
                · next hngt =>
                    cases h
                    exact not_lt.mp hngt
              · next hnst =>
                  cases h
                  exact absurd hr hnst
        | true =>
          simp only [get_price_incremented, hq] at h
          rw [hside] at h
          simp only [hst, get_price_target_via_op, hop] at h
          split at h
          · split at h
            · exact ih _ (removeFirst p lst) (some c) true step true r h hr
            · next hngt =>
                cases h
                exact not_lt.mp hngt
          · next hnst =>
              cases h
              exact absurd hr hnst
      | none =>
        cases force with
        | false =>
          simp only [get_price_incremented, hq] at h
          rw [hside] at h
          simp only [hst, get_price_target_via_op, hop] at h
          split at h
          · split at h
            · exact ih _ (removeFirst p lst) none true step true r h hr
            · next hngt =>
                cases h
                exact not_lt.mp hngt
          · next hnst =>
              cases h
              exact absurd hr hnst
        | true =>
          simp only [get_price_incremented, hq] at h
          rw [hside] at h
          simp only [hst, get_price_target_via_op, hop] at h
          split at h
          · split at h
            · exact ih _ (removeFirst p lst) none true step true r h hr
            · next hngt =>
                cases h
                exact not_lt.mp hngt
          · next hnst =>
              cases h
              exact absurd hr hnst

/-- A sell-side call with `min_profit` set and an absent `stop_amount` never
produces a price: it raises the `TypeError` of comparing a number with `None`
(or, when a loop never converges, does not return at all). -/
theorem pi_noneStop (m : MarketMaker) (o : MMOrder) (hside : o.side = Side.sell)
    (hst : stop_amount m o = none) :
    ∀ (fuel : Nat) (p : ℚ) (lst : List ℚ) (cap : Option ℚ) (inc : Bool) (step : ℚ)
      (mp : ℚ) (force : Bool),
      get_price_incremented m o fuel p lst cap inc step (some mp) force
          = Except.error Err.typeError ∨
        get_price_incremented m o fuel p lst cap inc step (some mp) force
          = Except.error Err.fuelOut := by
  intro fuel
  induction fuel with
  | zero =>
    intro p lst cap inc step mp force
    right
    simp only [get_price_incremented]
  | succ k ih =>
    intro p lst cap inc step mp force
    cases hq : piConverge (removeFirst p lst) inc step (k+1) p with
    | error e =>
      have he := piConverge_error _ _ _ _ _ _ hq
      right
      simp only [get_price_incremented, hq, he]
    | ok q =>
      cases cap with
      | some c =>
        cases force with
        | false =>
          simp only [get_price_incremented, hq]
          split
          · exact ih q (removeFirst p lst) (some c) true step (1/100) true
          · split
            · exact ih q (removeFirst p lst) (some c) false step (1/100) true
            · rw [hside]
              simp [hst]
        | true =>
          simp only [get_price_incremented, hq]
          rw [hside]
          simp [hst]
      | none =>
        cases force with
        | false =>
          simp only [get_price_incremented, hq]
          rw [hside]
          simp [hst]
        | true =>
          simp only [get_price_incremented, hq]
          rw [hside]
          simp [hst]

/-- Every price returned by `get_price_incremented` is idempotent under
re-rounding to two decimals. -/
theorem pi_rounded (m : MarketMaker) (o : MMOrder) :
    ∀ (fuel : Nat) (p : ℚ) (lst : List ℚ) (cap : Option ℚ) (inc : Bool) (step : ℚ)
      (mp : Option ℚ) (force : Bool) (r : ℚ),
      get_price_incremented m o fuel p lst cap inc step mp force = Except.ok r →
      round2 r = r := by
  intro fuel
  induction fuel with
  | zero =>
    intro p lst cap inc step mp force r h
    simp only [get_price_incremented] at h
    exact (Except.noConfusion h)
  | succ k ih =>
    intro p lst cap inc step mp force r h
    cases hq : piConverge (removeFirst p lst) inc step (k+1) p with
    | error e =>
      simp only [get_price_incremented, hq] at h
      exact (Except.noConfusion h)
    | ok q =>
      obtain ⟨⟨y, hy⟩, -⟩ := piConverge_ok _ _ _ _ _ _ hq
      have hq2 : round2 q = q := by rw [hy]; exact round2_round2 y
      have tail : ∀ (cap2 : Option ℚ),
          (match o.side, mp with
            | Side.sell, some mp' =>
              match stop_amount m o with
              | none => Except.error Err.typeError
              | some st =>
                if q > st then
                  if get_price_target_via_op o mp' > q then
                    get_price_incremented m o k (get_price_target_via_op o mp')
                      (removeFirst p lst) cap2 true step (some (1/100)) true
                  else Except.ok q
                else Except.ok q
            | _, _ => Except.ok q) = Except.ok r → round2 r = r := by
        intro cap2 h2
        cases hs : o.side with
        | buy =>
          rw [hs] at h2
          cases mp <;> simp at h2 <;> subst h2 <;> exact hq2
        | sell =>
          rw [hs] at h2
          cases mp with
          | none =>
            simp at h2
            subst h2
            exact hq2
          | some a =>
            cases hstA : stop_amount m o with
            | none =>
              simp only [hstA] at h2
              exact (Except.noConfusion h2)
            | some st =>
              simp only [hstA] at h2
              split at h2
              · split at h2
                · exact ih _ (removeFirst p lst) cap2 true step (some (1/100)) true r h2
                · cases h2
                  exact hq2
              · cases h2
                exact hq2
      cases cap with
      | some c =>
        cases force with
        | false =>
          simp only [get_price_incremented, hq] at h
          split at h
          · exact ih q (removeFirst p lst) (some c) true step (some (1/100)) true r h
          · split at h
            · exact ih q (removeFirst p lst) (some c) false step (some (1/100)) true r h
            · exact tail (some c) h
        | true =>
          simp only [get_price_incremented, hq] at h
          exact tail (some c) h
      | none =>
        cases force with
        | false =>
          simp only [get_price_incremented, hq] at h
          exact tail none h
        | true =>
          simp only [get_price_incremented, hq] at h
          exact tail none h

/-- The two sides are distinct (used to evaluate side tests by `simp`). -/
theorem sell_ne_buy : Side.sell ≠ Side.buy := fun h => Side.noConfusion h

/-- The two sides are distinct (used to evaluate side tests by `simp`). -/
theorem buy_ne_sell : Side.buy ≠ Side.sell := fun h => Side.noConfusion h

/-- With a pnl already below the target, the profit loop never exits. -/
theorem profitLoop_none (pnl mp : ℚ) (h : pnl < mp) :
    ∀ (n : Nat) (price : ℚ), profitLoop pnl mp n price = none := by
  intro n
  induction n with
  | zero =>
    intro price
    simp only [profitLoop, if_pos h]
  | succ k ih =>
    intro price
    simp only [profitLoop, if_pos h]
    exact ih _

/-! ## Concrete fixtures -/

/-- An empty order book with zero depth everywhere. -/
def bookEmpty : BookSnapshot := ⟨[], [], fun _ => 0, fun _ => 0⟩

/-- A book with a single ask at 100.10 and zero reported depth. -/
def bookAsk : BookSnapshot := ⟨[], [(1001/10, 1)], fun _ => 0, fun _ => 0⟩

/-- Market maker with no stop configured. -/
def mmPlain : MarketMaker := ⟨none, 1/10, 1/2, [], [], [], bookEmpty, none⟩

/-- Market maker with a 5% stop. -/
def mmStop5 : MarketMaker := ⟨some (5/100), 1/10, 1/2, [], [], [], bookEmpty, none⟩

/-- Market maker with a 0.01 minimum spread (for the ticker method). -/
def mmTick : MarketMaker := ⟨none, 1/100, 1/2, [], [], [], bookEmpty, none⟩

/-- Market maker whose book is `bookAsk` (for the sibling-positioning run). -/
def mmAsk : MarketMaker := ⟨none, 1/10, 1/2, [], [], [], bookAsk, none⟩

/-- A fresh, unpaired buy at 100. -/
def oBuy100 : MMOrder := MMOrder.mk Side.buy 100 1 none false none 0

/-- A fresh, unpaired buy at 200. -/
def oBuy200 : MMOrder := MMOrder.mk Side.buy 200 1 none false none 0

/-- An unpaired buy leg at 300, used as a pairing target. -/
def oOpBuy300 : MMOrder := MMOrder.mk Side.buy 300 1 none false none 0

/-- An unpaired sell leg at 310, used as a pairing target. -/
def oOpSell310 : MMOrder := MMOrder.mk Side.sell 310 1 none false none 0

/-- A sell at 300 paired to the buy at 300. -/
def oSell300 : MMOrder := MMOrder.mk Side.sell 300 1 (some oOpBuy300) false none 0

/-- A sell at 310 paired to the buy at 300. -/
def oSell310 : MMOrder := MMOrder.mk Side.sell 310 1 (some oOpBuy300) false none 0

/-- A buy at 300 paired to the sell at 310. -/
def oBuy300p : MMOrder := MMOrder.mk Side.buy 300 1 (some oOpSell310) false none 0

/-- A locked order whose stored unlock method returns falsy. -/
def oLocked : MMOrder := MMOrder.mk Side.buy 100 1 none true (some PredOutcome.retFalse) 0

/-! ## Claims -/

/-- C3: the spec says reading the `locked` accessor is a terminating
computation returning the stored lock flag.  The source's accessor body is
`return self.locked` — the property itself — so every read recurses until
`RecursionError`: the embedding returns no answer at any fuel, on any order,
whatever its stored flag. -/
theorem claim_C3_locked_accessor_diverges :
    ∀ (n : Nat) (o : MMOrder), lockedAccessor n o = none := by
  intro n
  induction n with
  | zero => intro o; rfl
  | succ k ih =>
    intro o
    simp only [lockedAccessor]
    exact ih o

/-- C5: `lock` on an unlocked order succeeds, locking it and storing the
unlock method; `lock` on a locked order fails with `OrderLockError`; `unlock`
with no stored method always succeeds and unlocks; `unlock` whose stored
method returns falsy or raises fails with `OrderLockError` — and, the
embedding being functional, a failing call returns no new state, so the order
remains locked exactly as it was. -/
theorem claim_C5_lock_protocol (o : MMOrder) (um : Option PredOutcome) :
    (o.locked = false →
      ∃ o2, o.lock um = Except.ok o2 ∧ o2.locked = true ∧ o2.unlockM = um) ∧
    (o.locked = true → ∃ msg, o.lock um = Except.error msg) ∧
    (o.unlockM = none → ∃ o2, o.unlock = Except.ok o2 ∧ o2.locked = false) ∧
    (∀ po, o.unlockM = some po → po ≠ PredOutcome.retTrue →
      ∃ msg, o.unlock = Except.error msg) := by
  cases o with
  | mk s p z op l u c =>
    refine ⟨?_, ?_, ?_, ?_⟩
    · intro hl
      simp only [MMOrder.locked] at hl
      subst hl
      exact ⟨MMOrder.mk s p z op true um c, rfl, rfl, rfl⟩
    · intro hl
      simp only [MMOrder.locked] at hl
      subst hl
      exact ⟨_, rfl⟩
    · intro hu
      simp only [MMOrder.unlockM] at hu
      subst hu
      exact ⟨MMOrder.mk s p z op false none c, rfl, rfl⟩
    · intro po hu hne
      simp only [MMOrder.unlockM] at hu
      subst hu
      cases po with
      | retTrue => exact absurd rfl hne
      | retFalse => exact ⟨_, rfl⟩
      | raises => exact ⟨_, rfl⟩

/-- C5 witness: a fresh order locks successfully; a locked order fails to
re-lock; an order with no stored unlock method unlocks; a locked order whose
stored method returns falsy fails to unlock. -/
theorem claim_C5_witness :
    (∃ o2, oBuy100.lock (some PredOutcome.retFalse) = Except.ok o2 ∧
      o2.locked = true ∧ o2.unlockM = some PredOutcome.retFalse) ∧
    (∃ msg, oLocked.lock none = Except.error msg) ∧
    (∃ o2, oBuy100.unlock = Except.ok o2 ∧ o2.locked = false) ∧
    (∃ msg, oLocked.unlock = Except.error msg) :=
  ⟨(claim_C5_lock_protocol oBuy100 (some PredOutcome.retFalse)).1 rfl,
   (claim_C5_lock_protocol oLocked none).2.1 rfl,
   (claim_C5_lock_protocol oBuy100 none).2.2.1 rfl,
   (claim_C5_lock_protocol oLocked none).2.2.2 PredOutcome.retFalse rfl
     (by intro h; cases h)⟩

/-- C6: registering an opposite-side order adopts it directly; registering a
same-side order that has a pairing adopts that very pairing (identity is
carried forward unchanged); registering a same-side order without a pairing
fails with an error, and the failing call returns no new state, leaving the
receiver's pairing as it was. -/
theorem claim_C6_pairing (self other : MMOrder) :
    (other.side ≠ self.side →
      register_op_order self other = Except.ok (self.withOp (some other))) ∧
    (∀ o2, other.side = self.side → other.op = some o2 →
      register_op_order self other = Except.ok (self.withOp (some o2))) ∧
    (other.side = self.side → other.op = none →
      ∃ msg, register_op_order self other = Except.error msg) := by
  refine ⟨?_, ?_, ?_⟩
  · intro hne
    simp only [register_op_order, if_neg hne]
  · intro o2 he hop
    simp only [register_op_order, if_pos he, hop]
  · intro he hop
    simp only [register_op_order, if_pos he, hop]
    exact ⟨_, rfl⟩

/-- C6 witness: a sell is adopted by a buy directly; a same-side replacement
buy carrying a pairing hands that pairing over unchanged; a same-side buy
without a pairing is rejected. -/
theorem claim_C6_witness :
    register_op_order oBuy100 oOpSell310 = Except.ok (oBuy100.withOp (some oOpSell310)) ∧
    register_op_order oBuy100 oBuy300p = Except.ok (oBuy100.withOp (some oOpSell310)) ∧
    (∃ msg, register_op_order oBuy100 oBuy200 = Except.error msg) :=
  ⟨(claim_C6_pairing oBuy100 oOpSell310).1 (by intro h; cases h),
   (claim_C6_pairing oBuy100 oBuy300p).2.1 oOpSell310 rfl rfl,
   (claim_C6_pairing oBuy100 oBuy200).2.2 rfl rfl⟩

/-- C7: with no pairing `get_pnl` is absent; with a pairing it is
`round(sell_size*sell_price - buy_size*buy_price, 2)` where this leg
contributes its size and the evaluation price (defaulting to its own price)
on its own side, and the paired leg contributes its stored size and price on
the other side. -/
theorem claim_C7_pnl (o : MMOrder) (price : Option ℚ) :
    (o.op = none → get_pnl o price = none) ∧
    (∀ opo, o.op = some opo → o.side = Side.buy →
      get_pnl o price
        = some (round2 (opo.size * opo.price - o.size * price.getD o.price))) ∧
    (∀ opo, o.op = some opo → o.side = Side.sell →
      get_pnl o price
        = some (round2 (o.size * price.getD o.price - opo.size * opo.price))) := by
  refine ⟨?_, ?_, ?_⟩
  · intro hop
    simp only [get_pnl, hop]
  · intro opo hop hs
    simp only [get_pnl, hop, hs, if_pos]
  · intro opo hop hs
    simp only [get_pnl, hop, hs]
    simp

/-- C7 witness: sell 1 @ 310 against its buy 1 @ 300 yields pnl 10.00 at the
order's own price; the buy leg evaluated at price 290 against its sell
1 @ 310 yields pnl 20.00. -/
theorem claim_C7_witness :
    get_pnl oSell310 none = some 10 ∧ get_pnl oBuy300p (some 290) = some 20 := by
  have h1 := (claim_C7_pnl oSell310 none).2.2 oOpBuy300 rfl rfl
  have h2 := (claim_C7_pnl oBuy300p (some 290)).2.1 oOpSell310 rfl rfl
  rw [h1, h2]
  constructor <;>
    norm_num [oSell310, oOpBuy300, oBuy300p, oOpSell310, MMOrder.size, MMOrder.price,
      Option.getD, round2, Rat.floor]

/-- C2: the spec says the profit-target method repeatedly adds one cent until
`get_pnl(price) ≥ min_profit`, returning the first such price.  The source
computes `pnl` once, before the loop, and never recomputes it, so whenever the
starting pnl is below the target the loop never exits.  On a sell of size 1 at
300.00 paired to a buy of size 1 at 300.00 (pnl 0.00 < 0.01) the method never
returns at any fuel, although 300.01 already meets the target; without a
pairing it does return the current price unchanged. -/
theorem claim_C2_profit_target_diverges :
    (∀ fuel : Nat, get_price_adjusted_to_profit_target oSell300 fuel (1/100) = none) ∧
    (∀ fuel : Nat, get_price_adjusted_to_profit_target oBuy100 fuel (1/100) = some 100) := by
  constructor
  · intro fuel
    have hpnl : get_pnl oSell300 (some oSell300.price) = some 0 := by
      norm_num [get_pnl, oSell300, oOpBuy300, MMOrder.op, MMOrder.side, MMOrder.price,
        MMOrder.size, Option.getD, round2, Rat.floor]
    simp only [get_price_adjusted_to_profit_target, hpnl]
    exact profitLoop_none 0 (1/100) (by norm_num) fuel _
  · intro fuel
    have hpnl : get_pnl oBuy100 (some oBuy100.price) = none := by
      simp [get_pnl, oBuy100, MMOrder.op]
    simp only [get_price_adjusted_to_profit_target, hpnl]
    rfl

/-- C1 counterexample: the claim demands `|result − x| > step` for every
other price `x ≠ p`.  With a buy at `p = 100`, `other_prices = [100.03]` and
`step = 0.03`, the initial collision check is strict, finds nothing, and the
method returns `100` without moving — at distance exactly `step`, not more,
from the sibling `100.03`. -/
theorem claim_C1_counterexample :
    get_price_incremented mmPlain oBuy100 5 100 [10003/100] none true (3/100) none false
        = Except.ok 100 ∧
    (10003/100 : ℚ) ∈ removeFirst 100 [10003/100] ∧
    (10003/100 : ℚ) ≠ 100 ∧
    ¬ ((3:ℚ)/100 < |(100:ℚ) - 10003/100|) := by
  refine ⟨?_, by norm_num [removeFirst], by norm_num, ?_⟩
  · norm_num [get_price_incremented, piConverge, piLoop, piStep, removeFirst, round2,
      Rat.floor, mmPlain, oBuy100, MMOrder.side, MMOrder.op]
  · have habs : |(100:ℚ) - 10003/100| = 3/100 := by
      rw [abs_sub_comm, abs_of_nonneg (by norm_num)]
      norm_num
    rw [habs]
    norm_num

/-- C1 (amended): for buy-side calls with a 2-decimal starting price and
`step > 0`, every returned price is at distance at least `step` (not strictly
more) from every price surviving the removal of the one occurrence of `p`;
the sell side is excluded because its minimum-profit override restarts from
`op_order.price + 0.01`, which may coincide with a sibling price. -/
theorem claim_C1_amended (m : MarketMaker) (o : MMOrder) (hside : o.side = Side.buy)
    (fuel : Nat) (p : ℚ) (other_prices : List ℚ) (cap_out : Option ℚ)
    (increment : Bool) (step : ℚ) (min_profit : Option ℚ) (force : Bool) (r : ℚ)
    (hstep : 0 < step) (hp : round2 p = p)
    (hok : get_price_incremented m o fuel p other_prices cap_out increment step
      min_profit force = Except.ok r) :
    ∀ x ∈ removeFirst p other_prices, step ≤ |r - x| :=
  pi_separation m o hside step hstep fuel p other_prices cap_out increment min_profit
    force r hp hok

/-- C1 witness: the amended claim applied to a buy at 100 against the sibling
list `[100.06]` with step 0.03; the returned 100 is at distance 0.06 from the
surviving sibling. -/
theorem claim_C1_witness :
    (0:ℚ) < 3/100 ∧ round2 100 = 100 ∧
    ∀ x ∈ removeFirst 100 [10006/100], (3:ℚ)/100 ≤ |(100:ℚ) - x| :=
  ⟨by norm_num, by norm_num [round2, Rat.floor],
    claim_C1_amended mmPlain oBuy100 rfl 5 100 [10006/100] none true (3/100) none false 100
      (by norm_num) (by norm_num [round2, Rat.floor])
      (by norm_num [get_price_incremented, piConverge, piLoop, piStep, removeFirst,
        round2, Rat.floor, mmPlain, oBuy100, MMOrder.side, MMOrder.op])⟩

/-- C4 counterexample: the claim asks for `result ≥ B + min_profit` for any
configured `min_profit` whenever the converged price is above the stop-out.
With `min_profit = 0.50` and a `cap_out`, the cap branch returns the result of
a forced recursion whose `min_profit` silently reverts to the default `0.01`,
so the outer floor `300.50` is never enforced: the sell paired to a buy at
300.00 (stop-out 285.00) returns 300.08, above the stop-out yet below
`B + 0.50`. -/
theorem claim_C4_counterexample :
    oSell300.op = some oOpBuy300 ∧
    stop_amount mmStop5 oSell300 = some 285 ∧
    get_price_incremented mmStop5 oSell300 10 (30002/100) [30003/100] (some (30005/100))
        true (3/100) (some (1/2)) false = Except.ok (30008/100) ∧
    (285:ℚ) < 30008/100 ∧
    ¬ (oOpBuy300.price + 1/2 ≤ 30008/100) := by
  refine ⟨rfl, ?_, ?_, by norm_num, ?_⟩
  · norm_num [stop_amount, truthyQ, mmStop5, oSell300, oOpBuy300, MMOrder.op,
      MMOrder.side, MMOrder.price, sell_ne_buy]
  · norm_num [get_price_incremented, piConverge, piLoop, piStep, removeFirst, round2,
      Rat.floor, mmStop5, oSell300, oOpBuy300, MMOrder.side, MMOrder.op, MMOrder.price,
      stop_amount, truthyQ, get_price_target_via_op, sell_ne_buy]
  · norm_num [oOpBuy300, MMOrder.price]

/-- C4 (amended): for a sell paired to a buy, with `min_profit` at its default
`0.01`, every returned price above the stop-out level is at least the paired
buy price plus `0.01`. -/
theorem claim_C4_amended (m : MarketMaker) (o : MMOrder) (hside : o.side = Side.sell)
    (opo : MMOrder) (hop : o.op = some opo) (st : ℚ) (hst : stop_amount m o = some st)
    (fuel : Nat) (p : ℚ) (other_prices : List ℚ) (cap_out : Option ℚ)
    (increment : Bool) (step : ℚ) (force : Bool) (r : ℚ)
    (hok : get_price_incremented m o fuel p other_prices cap_out increment step
      (some (1/100)) force = Except.ok r)
    (hnotstopped : st < r) :
    opo.price + 1/100 ≤ r :=
  pi_floor m o hside opo hop st hst fuel p other_prices cap_out increment step force r
    hok hnotstopped

/-- C4 witness: the sell at 290 paired to the buy at 300 (stop-out 285)
returns 300.01 ≥ 300.00 + 0.01. -/
theorem claim_C4_witness :
    stop_amount mmStop5 oSell300 = some 285 ∧ (285:ℚ) < 30001/100 ∧
    oOpBuy300.price + 1/100 ≤ 30001/100 := by
  have hstop : stop_amount mmStop5 oSell300 = some 285 := by
    norm_num [stop_amount, truthyQ, mmStop5, oSell300, oOpBuy300, MMOrder.op,
      MMOrder.side, MMOrder.price, sell_ne_buy]
  refine ⟨hstop, by norm_num, ?_⟩
  exact claim_C4_amended mmStop5 oSell300 rfl oOpBuy300 rfl 285 hstop 5 290 [] none true
    (3/100) false (30001/100)
    (by norm_num [get_price_incremented, piConverge, piLoop, piStep, removeFirst, round2,
      Rat.floor, mmStop5, oSell300, oOpBuy300, MMOrder.side, MMOrder.op, MMOrder.price,
      stop_amount, truthyQ, get_price_target_via_op, sell_ne_buy])
    (by norm_num)

/-- C10: a sell-side call of `get_price_incremented` with `min_profit` set and
`stop_amount` absent (no `stop_pct` or no pairing) never produces a price: it
reaches the comparison of the converged price with `None` and raises
`TypeError` (or, if an escape loop never converges, fails to return at all) —
so a configured `stop_pct` and a registered pairing are an undocumented
precondition of the sell-side path. -/
theorem claim_C10_sell_none_stop (m : MarketMaker) (o : MMOrder)
    (hside : o.side = Side.sell) (hst : stop_amount m o = none)
    (fuel : Nat) (p : ℚ) (other_prices : List ℚ) (cap_out : Option ℚ)
    (increment : Bool) (step : ℚ) (min_profit : ℚ) (force : Bool) :
    get_price_incremented m o fuel p other_prices cap_out increment step
        (some min_profit) force = Except.error Err.typeError ∨
      get_price_incremented m o fuel p other_prices cap_out increment step
        (some min_profit) force = Except.error Err.fuelOut :=
  pi_noneStop m o hside hst fuel p other_prices cap_out increment step min_profit force

/-- C10 witness: with no `stop_pct` configured the paired sell never returns a
price; with ample fuel the failing branch is precisely the `TypeError`, as the
direct evaluation in the middle conjunct shows. -/
theorem claim_C10_witness :
    stop_amount mmPlain oSell300 = none ∧
    get_price_incremented mmPlain oSell300 5 100 [] none true (3/100) (some (1/100)) false
        = Except.error Err.typeError ∧
    (get_price_incremented mmPlain oSell300 5 100 [] none true (3/100) (some (1/100)) false
        = Except.error Err.typeError ∨
      get_price_incremented mmPlain oSell300 5 100 [] none true (3/100) (some (1/100)) false
        = Except.error Err.fuelOut) := by
  have hst : stop_amount mmPlain oSell300 = none := by
    simp [stop_amount, truthyQ, mmPlain]
  refine ⟨hst, ?_, ?_⟩
  · norm_num [get_price_incremented, piConverge, piLoop, piStep, removeFirst, round2,
      Rat.floor, mmPlain, oSell300, oOpBuy300, MMOrder.side, MMOrder.op, stop_amount,
      truthyQ, sell_ne_buy]
  · exact claim_C10_sell_none_stop mmPlain oSell300 rfl hst 5 100 [] none true (3/100)
      (1/100) false

/-- C8 counterexample: the claim says every pricing method's present return
value is idempotent under re-rounding.  The ticker method clamps a buy price
to `ticker − spread` without rounding: with ticker 100.003 and spread 0.01 it
returns 99.993, which re-rounds to 99.99. -/
theorem claim_C8_counterexample :
    get_price_adjusted_to_ticker mmTick oBuy200 5 none (some (100003/1000)) true true
        = some (99993/1000) ∧
    round2 (99993/1000) ≠ 99993/1000 := by
  constructor
  · norm_num [get_price_adjusted_to_ticker, tickerLoop, get_other_order_prices, mmTick,
      oBuy200, MMOrder.side, MMOrder.price, Option.getD, round2, Rat.floor]
  · norm_num [round2, Rat.floor]

/-- C8 (amended): the collision-avoidance method `get_price_incremented` does
return only prices idempotent under re-rounding; the ticker- and wall-relative
methods (and the clamp/pass-through paths of the spread and profit-target
methods) can return unrounded prices. -/
theorem claim_C8_amended (m : MarketMaker) (o : MMOrder) (fuel : Nat) (p : ℚ)
    (other_prices : List ℚ) (cap_out : Option ℚ) (increment : Bool) (step : ℚ)
    (min_profit : Option ℚ) (force : Bool) (r : ℚ)
    (hok : get_price_incremented m o fuel p other_prices cap_out increment step
      min_profit force = Except.ok r) :
    round2 r = r :=
  pi_rounded m o fuel p other_prices cap_out increment step min_profit force r hok

/-- C8 witness: a converged price of 100 is its own rounding. -/
theorem claim_C8_witness :
    get_price_incremented mmPlain oBuy100 5 100 [] none true (3/100) none false
        = Except.ok 100 ∧
    round2 (100:ℚ) = 100 := by
  have h : get_price_incremented mmPlain oBuy100 5 100 [] none true (3/100) none false
      = Except.ok 100 := by
    norm_num [get_price_incremented, piConverge, piLoop, piStep, removeFirst, round2,
      Rat.floor, mmPlain, oBuy100, MMOrder.side, MMOrder.op]
  exact ⟨h, claim_C8_amended mmPlain oBuy100 5 100 [] none true (3/100) none false 100 h⟩

/-- C9: the claim (and §4.8) says a buy-side aggressive call pushes the
baseline toward the top of the buy stack (increments) unless the baseline is
already at or above the highest sibling plus one step.  The source has the
comparison the other way round: it increments only when
`my_min >= max(other_prices) + step` and decrements otherwise, contradicting
its own comment that aggressive buys need to be near the top.  Here the
baseline is 100 (strictly below the only sibling 99.99 plus step), and the
call settles at 99.94 — below every sibling, not toward the top. -/
theorem claim_C9_aggressive_buy_direction :
    get_price_adjusted_to_spread mmAsk oBuy100 none true none (8/10) (some (1/100))
        = some 100 ∧
    (100:ℚ) < listMax [9999/100] + 3/100 ∧
    get_price_adjusted_to_other_prices mmAsk oBuy100 10 (some [9999/100]) true (3/100)
        (1/100) = Except.ok (9994/100) ∧
    (9994/100 : ℚ) < 100 ∧ (9994/100 : ℚ) < 9999/100 := by
  refine ⟨?_, by norm_num [listMax], ?_, by norm_num, by norm_num⟩
  · norm_num [get_price_adjusted_to_spread, spread_price, spread_clamp, truthyQ,
      get_amount_above_spread, belowLoop, aboveLoop, bookAsk, mmAsk, oBuy100,
      MMOrder.side, MMOrder.op, MMOrder.price, round2, Rat.floor]
  · norm_num [get_price_adjusted_to_other_prices, get_price_adjusted_to_spread,
      spread_price, spread_clamp, truthyQ, get_amount_above_spread, belowLoop, aboveLoop,
      bookAsk, mmAsk, oBuy100, MMOrder.side, MMOrder.op, MMOrder.price, listMax, listMin,
      get_price_incremented, piConverge, piLoop, piStep, removeFirst, round2, Rat.floor]
